import Mathlib

/-!
Verification development for the Firebase-analytics CSV dashboard pipeline
(`csv-analytics-repository` / `csv-analytics-service`).

The TypeScript core is shallowly embedded below:
* strings are Lean `String`s, with all character-level operations defined
  explicitly over `String.toList` so that every definition is executable;
* JavaScript numbers are modelled as rationals (`ℚ`); where `NaN` can
  arise (the `parseInt`/`parseFloat` coercions of the dataset loaders)
  the result type is `Option Int` / `Option ℚ` with `none` standing for
  `NaN`;
* a JavaScript `Map` (insertion-ordered, `set` on an existing key keeps
  the key's position) is an association list with in-place update;
* calendar dates are represented by their proleptic-Gregorian day number
  (`daysFromCivil`, days since 1970-01-01); `date-fns`'s
  `format(date, 'yyyy-MM-dd')` is injective on days, so identifying a
  produced record's `date` string with its day number is faithful.
-/

/-! ### Character-list string utilities -/

/-- Does `pat` occur as a contiguous sub-list of `l`?  Models JS
`String.prototype.includes`. -/
def occursIn (pat : List Char) : List Char → Bool
  | [] => pat.isEmpty
  | c :: rest => pat.isPrefixOf (c :: rest) || occursIn pat rest

/-- Models JS `s.includes pat` on Lean strings. -/
def containsSub (s pat : String) : Bool := occursIn pat.toList s.toList

/-- Trim leading and trailing whitespace from a character list
(models JS `String.prototype.trim` on the ASCII whitespace that occurs in
the CSV exports). -/
def trimChars (l : List Char) : List Char :=
  ((l.dropWhile Char.isWhitespace).reverse.dropWhile Char.isWhitespace).reverse

/-- JS `s.trim()`. -/
def strim (s : String) : String := String.mk (trimChars s.toList)

/-- JS `s.startsWith p`. -/
def startsW (s p : String) : Bool := p.toList.isPrefixOf s.toList

/-- JS `s.endsWith p`. -/
def endsW (s p : String) : Bool := p.toList.isSuffixOf s.toList

/-- JS `s.toLowerCase()` (the file names and feature names involved are
ASCII, where `Char.toLower` agrees with JS). -/
def lowerStr (s : String) : String := String.mk (s.toList.map Char.toLower)

/-- Split a character list at every occurrence of `c`
(models JS `String.prototype.split` with a one-character separator:
`split` on `""` yields `[""]`, separators at the ends yield empty pieces). -/
def splitChar (c : Char) : List Char → List (List Char)
  | [] => [[]]
  | x :: xs =>
    match splitChar c xs with
    | [] => [[]]          -- unreachable: splitChar never returns []
    | h :: t => if x = c then [] :: h :: t else (x :: h) :: t

/-- JS `content.split('\n')`. -/
def linesOf (content : String) : List String :=
  (splitChar '\n' content.toList).map fun l => String.mk l

/-- JS `line.split(',').map(c => c.trim())` (used both for the header and
for data rows). -/
def splitCommaTrim (s : String) : List String :=
  (splitChar ',' s.toList).map fun l => String.mk (trimChars l)

/-- Numeric value of a digit list, most significant first. -/
def natOfDigits (l : List Char) : Nat :=
  l.foldl (fun a c => a * 10 + (c.toNat - '0'.toNat)) 0

/-! ### Association maps (JS `Map` and plain objects)

A JS `Map` iterates in insertion order and `set` on an existing key
updates the value without moving the key.  The same model serves for the
plain objects that hold parsed CSV rows (JS object property order for
string keys is also insertion order, with assignment to an existing key
overwriting in place). -/

/-- Lookup in an association list (JS `map.get(k)` / `obj[k]`). -/
def aGet {α : Type} : List (String × α) → String → Option α
  | [], _ => none
  | (k, v) :: rest, n => if k = n then some v else aGet rest n

/-- Insertion-order-preserving update (JS `map.set(k, v)` / `obj[k] = v`). -/
def aSet {α : Type} : List (String × α) → String → α → List (String × α)
  | [], k, v => [(k, v)]
  | (k', v') :: rest, k, v =>
    if k' = k then (k, v) :: rest else (k', v') :: aSet rest k v

/-! ### Sectioned CSV parser (`CSVAnalyticsRepository.parseCSV`)

The source reads the file, splits on `'\n'`, scans for the header line,
cuts the section off at the next `# ... Start date:` comment, drops blank
and comment lines, and parses `[header, ...dataLines]` into column-keyed
records.  The primary parse uses `csv-parse` with
`{columns, skip_empty_lines, trim, relax_column_count, relax_quotes}`;
on failure it falls back to a manual comma split zipping header columns
with row values (missing value → `''`).  On the quote-free inputs this
specification exercises, the library call and the fallback produce the
same records (an absent key and an empty-string value are
indistinguishable to every consumer, which reads fields as
`record[col] || default` or by truthiness), so record construction is
modelled once, by the comma-split zip. -/

/-- A parsed row: column name → raw string field.  A missing column reads
as `""` (JS `undefined` and `''` are equally falsy to all consumers). -/
abbrev Row := List (String × String)

/-- JS `record[col]`, with `undefined` read back as `""`. -/
def rowGet (r : Row) (k : String) : String := (aGet r k).getD ""

/-- JS `x || d` on strings (empty string is falsy). -/
def jsOr (s d : String) : String := if s = "" then d else s

/-- Map with the element index, starting at `i₀`
(models JS `arr.map((x, index) => ...)` when started at 0). -/
def mapIdxFrom {α β : Type} (f : Nat → α → β) : Nat → List α → List β
  | _, [] => []
  | i, x :: xs => f i x :: mapIdxFrom f (i + 1) xs

/-- Build one record: zip header columns with the comma-split row values
(`record[col] = cols[idx] || ''`); duplicate column names overwrite in
place, as JS object assignment does. -/
def mkRecord (cols : List String) (line : String) : Row :=
  let vals := splitCommaTrim line
  (mapIdxFrom (fun i c => (c, vals.getD i "")) 0 cols).foldl
    (fun r p => aSet r p.1 p.2) []

/-- The header-line scan of `parseCSV` (source lines 222-255): skip blank
and `#` lines; with a section marker, the header is the first remaining
line whose trimmed form contains the marker; without one, the first
remaining line containing a comma.  Returns the line's index. -/
def findHeaderIdx (sec : Option String) : List String → Nat → Option Nat
  | [], _ => none
  | l :: ls, i =>
    let t := strim l
    if t = "" || startsW t "#" then findHeaderIdx sec ls (i + 1)
    else
      match sec with
      | some m => if containsSub t m then some i else findHeaderIdx sec ls (i + 1)
      | none => if containsSub t "," then some i else findHeaderIdx sec ls (i + 1)

/-- The boundary that ends a section (source lines 236, 248): a line whose
trimmed form starts with `#` and which contains `Start date:` (the
`includes` runs on the untrimmed line, as in the source). -/
def isBoundary (l : String) : Bool :=
  startsW (strim l) "#" && containsSub l "Start date:"

/-- First index `≥ j` (in the original line numbering) of a boundary line,
given the lines from position `j` on; `j +` the remaining length — i.e.
the total line count — if none is found. -/
def findBFrom : List String → Nat → Nat
  | [], j => j
  | l :: ls, j => if isBoundary l then j else findBFrom ls (j + 1)

/-- The `headerIndex` of `parseCSV` for a whole file. -/
def headerIdx (content : String) (sec : Option String) : Option Nat :=
  findHeaderIdx sec (linesOf content) 0

/-- The `dataEndIndex` of `parseCSV` for a whole file, given the header index. -/
def sectionEnd (content : String) (h : Nat) : Nat :=
  findBFrom ((linesOf content).drop (h + 1)) (h + 1)

/-- The data-line filter of `parseCSV` (source lines 263-268): drop blank
lines and comment lines. -/
def keepLine (l : String) : Bool := !(strim l = "") && !(startsW (strim l) "#")

/-- The surviving data lines of the selected section: lines after the
header, up to the boundary, filtered. -/
def sectionDataLines (content : String) (h : Nat) : List String :=
  (((linesOf content).drop (h + 1)).take (sectionEnd content h - (h + 1))).filter
    keepLine

/-- Models `CSVAnalyticsRepository.parseCSV` (source lines 212-303), as a function
of the file content.  The source's early `return []` when `dataLines` is
empty coincides with mapping over the empty list. -/
def parseCSV (content : String) (sec : Option String) : List Row :=
  match headerIdx content sec with
  | none => []
  | some h =>
    (sectionDataLines content h).map
      (mkRecord (splitCommaTrim ((linesOf content).getD h "")))

/-! ### JS numeric coercions

`parseInt(s, 10)` and `parseFloat(s)` never throw; they skip leading
whitespace, read an optional sign and then as many radix-10 digits
(resp. a decimal mantissa and optional exponent) as possible, and return
`NaN` when no digit was read.  `NaN` is modelled as `none`; finite values
as `Int` / `ℚ`.  (The special literal `Infinity`, which `parseFloat`
accepts, does not occur in the exports this spec covers and is not
modelled.) -/

/-- Read an optional leading `+`/`-` sign. -/
def readSign : List Char → Int × List Char
  | '-' :: t => (-1, t)
  | '+' :: t => (1, t)
  | t => (1, t)

/-- JS `parseInt(s, 10)`; `none` is `NaN`. -/
def jsParseInt (s : String) : Option Int :=
  let cs := trimChars s.toList
  let p := readSign cs
  let ds := p.2.takeWhile Char.isDigit
  if ds.isEmpty then none else some (p.1 * (natOfDigits ds : Int))

/-- Exponent part of `parseFloat` (after the `e`/`E`): an optional sign
and digits; an incomplete exponent contributes 0, as in JS. -/
def readExp (t : List Char) : Int :=
  let p := readSign t
  let ds := p.2.takeWhile Char.isDigit
  if ds.isEmpty then 0 else p.1 * (natOfDigits ds : Int)

/-- JS `parseFloat(s)`; `none` is `NaN`.  The value
`sign · digits(ip ++ fp) · 10^(exponent − |fp|)` is assembled with
integer arithmetic through `mkRat` so that it evaluates by kernel
reduction. -/
def jsParseFloat (s : String) : Option ℚ :=
  let cs := trimChars s.toList
  let p := readSign cs
  let ip := p.2.takeWhile Char.isDigit
  let rest := p.2.drop ip.length
  let fp := match rest with
    | '.' :: t => t.takeWhile Char.isDigit
    | _ => []
  let rest2 := match rest with
    | '.' :: t => t.drop fp.length
    | _ => rest
  if ip.isEmpty && fp.isEmpty then none
  else
    let ex : Int := match rest2 with
      | 'e' :: t => readExp t
      | 'E' :: t => readExp t
      | _ => 0
    let num : Int := p.1 * (natOfDigits (ip ++ fp) : Int)
    let scale : Int := ex - fp.length
    some (if 0 ≤ scale then mkRat (num * 10 ^ scale.toNat) 1
          else mkRat num (10 ^ (-scale).toNat))

/-- Holds iff, after trimming and an optional sign, the string starts
with a decimal digit — exactly when `parseInt` returns a finite value. -/
def digitLeading (s : String) : Bool :=
  ((readSign (trimChars s.toList)).2.headD ' ').isDigit

/-! ### Calendar dates

`loadOverviewData` extracts `Start date: YYYYMMDD` / `End date: YYYYMMDD`
with a regex, turns them into dates via `parseISO`, and enumerates
`eachDayOfInterval({start, end})`.  A date is represented by its civil
day number (days since 1970-01-01, Gregorian); an out-of-range month or
day makes `parseISO` produce an Invalid Date, on which
`eachDayOfInterval` throws — modelled by `none`, as is a reversed
interval. -/

def isLeapYear (y : Nat) : Bool := y % 4 = 0 && (y % 100 ≠ 0 || y % 400 = 0)

def daysInMonth (y m : Nat) : Nat :=
  if m = 2 then (if isLeapYear y then 29 else 28)
  else if m = 4 || m = 6 || m = 9 || m = 11 then 30
  else 31

def validYMD (y m d : Nat) : Bool :=
  1 ≤ m && m ≤ 12 && 1 ≤ d && d ≤ daysInMonth y m

/-- Civil-from-days algorithm: day number of `y-m-d` counted from
1970-01-01 (valid for the 4-digit years the `YYYYMMDD` regex can yield;
all quotients are non-negative after the standard era shift). -/
def daysFromCivil (y m d : Nat) : Int :=
  let yy : Int := if m ≤ 2 then (y : Int) - 1 else (y : Int)
  let era : Int := (if 0 ≤ yy then yy else yy - 399) / 400
  let yoe : Int := yy - era * 400
  let mp : Int := ((m : Int) + 9) % 12
  let doy : Int := (153 * mp + 2) / 5 + (d : Int) - 1
  let doe : Int := yoe * 365 + yoe / 4 - yoe / 100 + doy
  era * 146097 + doe - 719468

/-- Scan for the first position where `tag` occurs followed by at least
8 digits, returning those 8 digits — the behaviour of
`content.match(/Tag: (\d{8})/)` (the regex engine resumes scanning at
the next position when fewer than 8 digits follow an occurrence). -/
def findTagDigits (tag : List Char) : List Char → Option (List Char)
  | [] => none
  | c :: rest =>
    if tag.isPrefixOf (c :: rest) then
      let d8 := ((c :: rest).drop tag.length).take 8
      if d8.length = 8 && d8.all Char.isDigit then some d8
      else findTagDigits tag rest
    else findTagDigits tag rest

/-- The 8-digit date following the first full `tag` occurrence in the file. -/
def extractDate (content : String) (tag : String) : Option (List Char) :=
  findTagDigits tag.toList content.toList

/-- Models `parseISO` on the split `YYYYMMDD` digits: the civil day number if the
date is valid, `none` (Invalid Date) otherwise. -/
def ymdOf (d8 : List Char) : Option Int :=
  let y := natOfDigits (d8.take 4)
  let m := natOfDigits ((d8.drop 4).take 2)
  let d := natOfDigits ((d8.drop 6).take 2)
  if validYMD y m d then some (daysFromCivil y m d) else none

/-- The `n` consecutive day numbers starting at `s`. -/
def intsFrom (s : Int) : Nat → List Int
  | 0 => []
  | n + 1 => s :: intsFrom (s + 1) n

/-- Models `eachDayOfInterval` (start to end) as day numbers
(`s`, `s+1`, …, `e`; callers guard `s ≤ e`). -/
def intervalDates (s e : Int) : List Int := intsFrom s (e - s + 1).toNat

/-! ### File locator (`CSVAnalyticsRepository.findCSVFile`, lines 180-206)

Modelled as a function of the folder's entry list (a missing folder is
the `[]` entry list upstream; the `path.join` on the returned name is
presentation).  Exact match first; otherwise the first entry whose
lower-cased name starts with the lower-cased base pattern (the pattern
with its first `.csv` removed — JS `String.replace` with a string
pattern replaces only the first occurrence) and ends with `.csv`. -/

/-- Drops the first occurrence of `p` from a character list. -/
def removeFirstChars (p : List Char) : List Char → List Char
  | [] => []
  | c :: rest =>
    if p.isPrefixOf (c :: rest) then (c :: rest).drop p.length
    else c :: removeFirstChars p rest

/-- Remove the first occurrence of `pat` from `s` (JS
`s.replace(pat, '')` with a plain-string pattern). -/
def removeFirst (s pat : String) : String :=
  String.mk (removeFirstChars pat.toList s.toList)

/-- The per-entry match of the locator's fallback scan. -/
def fileMatches (base : String) (file : String) : Bool :=
  startsW (lowerStr file) (lowerStr base) && endsW (lowerStr file) ".csv"

/-- Models `findCSVFile` over the folder's entries. -/
def findCSVFile (files : List String) (pattern : String) : Option String :=
  if files.contains pattern then some pattern
  else files.find? (fileMatches (removeFirst pattern ".csv"))

/-! ### Dataset loaders

The loaders are modelled as functions of the located file's content (file
location is `findCSVFile`; a missing file raises upstream and is outside
the per-file claims).  Their numeric fields are `parseInt`/`parseFloat`
results, hence `Option Int` / `Option ℚ` with `none` for `NaN`. -/

/-- The `DailyActiveUsers` record (source lines 134-139); `date` is the civil day
number of the formatted `yyyy-MM-dd` string. -/
structure DailyActiveUsers where
  date : Int
  activeUsers30Days : Option Int
  activeUsers7Days : Option Int
  activeUsers1Day : Option Int
  deriving DecidableEq

/-- The `ScreenView` record as produced by `loadScreenViewsData` (source lines
123-132, 368-379). -/
structure LoadedScreenView where
  screenClass : String
  views : Option Int
  activeUsers : Option Int
  viewsPerActiveUser : Option ℚ
  avgEngagementTime : Option ℚ
  eventCount : Option Int
  keyEvents : Option Int
  totalRevenue : Option ℚ
  deriving DecidableEq

/-- The `AnalyticsEvent` record as produced by `loadEventsData` (source lines
115-121, 396-404). -/
structure LoadedAnalyticsEvent where
  eventName : String
  eventCount : Option Int
  totalUsers : Option Int
  eventCountPerUser : Option ℚ
  totalRevenue : Option ℚ
  deriving DecidableEq

/-- The row filter of `loadOverviewData` (line 342): keep rows whose
`'Nth day'` and `'30 days'` fields are truthy (non-empty). -/
def overviewRowKeep (r : Row) : Bool :=
  !(rowGet r "Nth day" = "") && !(rowGet r "30 days" = "")

/-- The records surviving `loadOverviewData`'s filter. -/
def overviewFiltered (content : String) : List Row :=
  (parseCSV content (some "30 days")).filter overviewRowKeep

/-- One output record of `loadOverviewData` (lines 343-350):
`allDates[index] || startDate` keeps the positional day when the index is
in range and silently falls back to the start date otherwise. -/
def overviewRecordAt (s e : Int) (i : Nat) (r : Row) : DailyActiveUsers :=
  { date := (intervalDates s e).getD i s
    activeUsers30Days := jsParseInt (jsOr (rowGet r "30 days") "0")
    activeUsers7Days := jsParseInt (jsOr (rowGet r "7 days") "0")
    activeUsers1Day := jsParseInt (jsOr (rowGet r "1 day") "0") }

/-- Models `CSVAnalyticsRepository.loadOverviewData` (source lines 309-352) as a
function of the overview file's content.  `none` models the thrown
errors: a missing `Start date:`/`End date:` 8-digit comment, an invalid
date, or a reversed interval (on which `eachDayOfInterval` throws). -/
def loadOverviewData (content : String) : Option (List DailyActiveUsers) :=
  match extractDate content "Start date: ", extractDate content "End date: " with
  | some s8, some e8 =>
    match ymdOf s8, ymdOf e8 with
    | some s, some e =>
      if s ≤ e then
        some (mapIdxFrom (fun i r => overviewRecordAt s e i r) 0
          (overviewFiltered content))
      else none
    | _, _ => none
  | _, _ => none

/-- The row filter of `loadScreenViewsData` (line 369). -/
def screenRowKeep (r : Row) : Bool :=
  !(rowGet r "Page title and screen class" = "") && !(rowGet r "Views" = "")

/-- The numeric coercion of one screens row (lines 370-379). -/
def coerceScreenRow (r : Row) : LoadedScreenView :=
  { screenClass := rowGet r "Page title and screen class"
    views := jsParseInt (jsOr (rowGet r "Views") "0")
    activeUsers := jsParseInt (jsOr (rowGet r "Active users") "0")
    viewsPerActiveUser := jsParseFloat (jsOr (rowGet r "Views per active user") "0")
    avgEngagementTime :=
      jsParseFloat (jsOr (rowGet r "Average engagement time per active user") "0")
    eventCount := jsParseInt (jsOr (rowGet r "Event count") "0")
    keyEvents := jsParseInt (jsOr (rowGet r "Key events") "0")
    totalRevenue := jsParseFloat (jsOr (rowGet r "Total revenue") "0") }

/-- Models `CSVAnalyticsRepository.loadScreenViewsData` (lines 357-380) on the
located file's content. -/
def loadScreenViewsData (content : String) : List LoadedScreenView :=
  ((parseCSV content (some "Page title and screen class")).filter
    screenRowKeep).map coerceScreenRow

/-- The row filter of `loadEventsData` (line 397). -/
def eventRowKeep (r : Row) : Bool :=
  !(rowGet r "Event name" = "") && !(rowGet r "Event count" = "")

/-- The numeric coercion of one events row (lines 398-404). -/
def coerceEventRow (r : Row) : LoadedAnalyticsEvent :=
  { eventName := rowGet r "Event name"
    eventCount := jsParseInt (jsOr (rowGet r "Event count") "0")
    totalUsers := jsParseInt (jsOr (rowGet r "Total users") "0")
    eventCountPerUser := jsParseFloat (jsOr (rowGet r "Event count per active user") "0")
    totalRevenue := jsParseFloat (jsOr (rowGet r "Total revenue") "0") }

/-- Models `CSVAnalyticsRepository.loadEventsData` (lines 385-405) on the located
file's content. -/
def loadEventsData (content : String) : List LoadedAnalyticsEvent :=
  ((parseCSV content (some "Event name")).filter eventRowKeep).map
    coerceEventRow

/-! ### Feature aggregation (`getFeatureUsageAnalysis`, lines 562-665)

The aggregator consumes loaded events and screens.  Its claims quantify
over arbitrary record lists; numeric fields are modelled as rationals
(the finite JS numbers of the data model — `NaN` inputs would make the
final comparison sort unspecified and are outside the claims). -/

/-- The `AnalyticsEvent` record as consumed by the aggregators. -/
structure AnalyticsEvent where
  eventName : String
  eventCount : ℚ
  totalUsers : ℚ
  eventCountPerUser : ℚ
  totalRevenue : ℚ
  deriving DecidableEq

/-- The `ScreenView` record as consumed by the aggregators. -/
structure ScreenView where
  screenClass : String
  views : ℚ
  activeUsers : ℚ
  viewsPerActiveUser : ℚ
  avgEngagementTime : ℚ
  eventCount : ℚ
  keyEvents : ℚ
  totalRevenue : ℚ
  deriving DecidableEq

/-- The five-way `featureType` of the detailed aggregator. -/
inductive FeatureType where
  | screen | event | menu | action | system
  deriving DecidableEq

/-- The `FeatureUsageDetail` record (source lines 563-571 / service lines 708-716). -/
@[ext] structure FeatureUsageDetail where
  featureName : String
  featureType : FeatureType
  usageCount : ℚ
  uniqueUsers : ℚ
  avgUsagePerUser : ℚ
  engagementTime : Option ℚ
  relatedScreens : Option (List String)
  deriving DecidableEq

/-- JS `x || 1` on a (finite) number: only `0` is falsy. -/
def jsOr1 (q : ℚ) : ℚ := if q = 0 then 1 else q

/-- The screen-seeding guard (lines 588, 812): a truthy class that is
neither `(not set)` nor `(other)`. -/
def screenOk (c : String) : Bool :=
  !(c = "") && !(c = "(not set)") && !(c = "(other)")

/-- Event-name classification of the detailed aggregator (lines 606-613). -/
def classifyEvent (n : String) : FeatureType :=
  if startsW n "menu_" then .menu
  else if containsSub n "login" || containsSub n "logout" || containsSub n "select_"
    then .action
  else if n = "screen_view" || n = "user_engagement" || n = "session_start"
      || n = "app_update" || n = "os_update" || n = "first_open"
    then .system
  else .event

abbrev FeatureMap := List (String × FeatureUsageDetail)

/-- The feature entry seeded from one screen (lines 590-597). -/
def seedEntry (s : ScreenView) : FeatureUsageDetail :=
  { featureName := s.screenClass
    featureType := .screen
    usageCount := s.views
    uniqueUsers := s.activeUsers
    avgUsagePerUser := s.viewsPerActiveUser
    engagementTime := some s.avgEngagementTime
    relatedScreens := none }

/-- One iteration of the screen-seeding `forEach` (lines 587-599). -/
def seedStep (m : FeatureMap) (s : ScreenView) : FeatureMap :=
  if screenOk s.screenClass then aSet m s.screenClass (seedEntry s) else m

/-- Step 1 — seed features from screens (lines 587-599). -/
def seedScreens (screens : List ScreenView) : FeatureMap :=
  screens.foldl seedStep []

/-- The in-place merge of an event into an existing entry (lines 616-620):
add the event count, take the max of the user counts, recompute the
average from the updated fields. -/
def mergedOf (f : FeatureUsageDetail) (e : AnalyticsEvent) : FeatureUsageDetail :=
  let usage := f.usageCount + e.eventCount
  let uniq := max f.uniqueUsers e.totalUsers
  { f with
    usageCount := usage
    uniqueUsers := uniq
    avgUsagePerUser := usage / jsOr1 uniq }

/-- The fresh entry inserted for an unseen event name (lines 622-628). -/
def initOf (e : AnalyticsEvent) : FeatureUsageDetail :=
  { featureName := e.eventName
    featureType := classifyEvent e.eventName
    usageCount := e.eventCount
    uniqueUsers := e.totalUsers
    avgUsagePerUser := e.eventCountPerUser
    engagementTime := none
    relatedScreens := none }

/-- Merge-or-insert for one event, as a function of the entry currently
stored under its name. -/
def step (f? : Option FeatureUsageDetail) (e : AnalyticsEvent) :
    FeatureUsageDetail :=
  match f? with
  | some f => mergedOf f e
  | none => initOf e

/-- Step 2 — process one event (lines 602-630). -/
def mergeEvent (m : FeatureMap) (e : AnalyticsEvent) : FeatureMap :=
  aSet m e.eventName (step (aGet m e.eventName) e)

/-- Step 2 over the whole event list. -/
def processEvents (m : FeatureMap) (events : List AnalyticsEvent) : FeatureMap :=
  events.foldl mergeEvent m

/-- The per-screen keyword test of step 3 (lines 642-652): the if/else-if
chain pushes the screen exactly when some fixed keyword occurs in both
the lower-cased feature name and the lower-cased screen class. -/
def relatedHit (fLower sLower : String) : Bool :=
  (containsSub fLower "document" && containsSub sLower "document")
  || (containsSub fLower "course" && containsSub sLower "course")
  || (containsSub fLower "dashboard" && containsSub sLower "dashboard")
  || (containsSub fLower "audit" && containsSub sLower "audit")
  || (containsSub fLower "communication" && containsSub sLower "communication")

/-- First-occurrence deduplication with the already-seen accumulator. -/
def dedupAux (seen : List String) : List String → List String
  | [] => []
  | x :: xs =>
    if seen.contains x then dedupAux seen xs
    else x :: dedupAux (x :: seen) xs

/-- First-occurrence deduplication (JS `[...new Set(arr)]`). -/
def dedupFirst (l : List String) : List String := dedupAux [] l

/-- The related screens collected for a feature name (lines 636-656). -/
def relatedScreensFor (screens : List ScreenView) (featureName : String) :
    List String :=
  dedupFirst ((screens.filter fun s =>
    relatedHit (lowerStr featureName) (lowerStr s.screenClass)).map
      fun s => s.screenClass)

/-- Step 3 applied to one entry (the `forEach` mutation, lines 633-659). -/
def adjustFeature (screens : List ScreenView) (k : String)
    (f : FeatureUsageDetail) : FeatureUsageDetail :=
  if f.featureType = .menu ∨ f.featureType = .action then
    if (relatedScreensFor screens k).isEmpty then f
    else { f with relatedScreens := some (relatedScreensFor screens k) }
  else f

/-- Step 3 over the whole map (entries are updated in place, so the map
shape is preserved). -/
def attachRelated (screens : List ScreenView) (m : FeatureMap) : FeatureMap :=
  m.map fun p => (p.1, adjustFeature screens p.1 p.2)

/-- The feature map built by `getFeatureUsageAnalysis` before the final
sort. -/
def featureMapOf (screens : List ScreenView) (events : List AnalyticsEvent) :
    FeatureMap :=
  attachRelated screens (processEvents (seedScreens screens) events)

/-- Stable insertion (descending by `key`) — the element goes after all
already-placed elements of equal key. -/
def insertByDesc {α : Type} (key : α → ℚ) (x : α) : List α → List α
  | [] => [x]
  | y :: ys => if key x ≤ key y then y :: insertByDesc key x ys else x :: y :: ys

/-- Stable sort descending by `key`: the behaviour of ES2019+
`Array.prototype.sort` with comparator `(a, b) => key(b) - key(a)` on
finite keys. -/
def sortByDesc {α : Type} (key : α → ℚ) (l : List α) : List α :=
  l.foldl (fun acc x => insertByDesc key x acc) []

/-- Models `CSVAnalyticsRepository.getFeatureUsageAnalysis` (lines 562-665):
the merged feature map's values, sorted descending by `usageCount`. -/
def getFeatureUsageAnalysis (events : List AnalyticsEvent)
    (screens : List ScreenView) : List FeatureUsageDetail :=
  sortByDesc (fun f => f.usageCount) ((featureMapOf screens events).map
    fun p => p.2)

/-! ### Summary aggregation (`CSVAnalyticsService.analyzeFeatureUsage`,
lines 807-860) -/

/-- The three-way category of the summary aggregation. -/
inductive Category where
  | screen | event | engagement
  deriving DecidableEq

/-- The `FeatureUsageStats` record (service lines 670-676). -/
structure FeatureUsageStats where
  featureName : String
  usageCount : ℚ
  uniqueUsers : ℚ
  avgUsagePerUser : ℚ
  category : Category
  deriving DecidableEq

/-- The four bootstrap events excluded by the summary aggregation
(line 826). -/
def systemEvents4 : List String :=
  ["session_start", "app_update", "os_update", "first_open"]

/-- Category assignment for a newly inserted event (lines 837-844). -/
def classifyCat (n : String) : Category :=
  if n = "screen_view" then .screen
  else if n = "user_engagement" then .engagement
  else if startsW n "menu_" then .event
  else .event

abbrev StatsMap := List (String × FeatureUsageStats)

/-- The stats entry seeded from one screen (lines 814-820). -/
def statSeedEntry (s : ScreenView) : FeatureUsageStats :=
  { featureName := s.screenClass
    usageCount := s.views
    uniqueUsers := s.activeUsers
    avgUsagePerUser := s.viewsPerActiveUser
    category := .screen }

/-- One iteration of the summary aggregation's screen seeding
(lines 811-822). -/
def statSeedStep (m : StatsMap) (s : ScreenView) : StatsMap :=
  if screenOk s.screenClass then aSet m s.screenClass (statSeedEntry s) else m

/-- Screen seeding of the summary aggregation (lines 811-822). -/
def seedStats (screens : List ScreenView) : StatsMap :=
  screens.foldl statSeedStep []

/-- Event processing of the summary aggregation (lines 827-855): the four
bootstrap events are skipped entirely; otherwise merge-or-insert exactly
as in the detailed aggregator. -/
def statStep (m : StatsMap) (e : AnalyticsEvent) : StatsMap :=
  if systemEvents4.contains e.eventName then m
  else
    match aGet m e.eventName with
    | some f =>
      let usage := f.usageCount + e.eventCount
      let uniq := max f.uniqueUsers e.totalUsers
      aSet m e.eventName
        { f with
          usageCount := usage
          uniqueUsers := uniq
          avgUsagePerUser := usage / jsOr1 uniq }
    | none =>
      aSet m e.eventName
        { featureName := e.eventName
          usageCount := e.eventCount
          uniqueUsers := e.totalUsers
          avgUsagePerUser := e.eventCountPerUser
          category := classifyCat e.eventName }

/-- Models `CSVAnalyticsService.analyzeFeatureUsage` (lines 807-860): merge,
sort descending by `usageCount`, truncate to 50. -/
def analyzeFeatureUsage (events : List AnalyticsEvent)
    (screens : List ScreenView) : List FeatureUsageStats :=
  (sortByDesc (fun f => f.usageCount)
    ((events.foldl statStep (seedStats screens)).map fun p => p.2)).take 50

/-! ### Permutation analysis of the detailed merge -/

/-- The events carrying one fixed name, folded through merge-or-insert.
`aGet` of the built map is exactly this fold (see
`aGet_processEvents`). -/
def foldStep (f? : Option FeatureUsageDetail) (l : List AnalyticsEvent) :
    Option FeatureUsageDetail :=
  l.foldl (fun a e => some (step a e)) f?

/-- A dummy row / record used only as `getD` defaults. -/
def dummyDaily : DailyActiveUsers := ⟨0, none, none, none⟩

/-- C1 counterexample input: a one-day range with two surviving data
rows — the loader emits one record per row, exceeding the day count. -/
def c1CexContent : String :=
  "# Start date: 20240101\n# End date: 20240101\nNth day,30 days,7 days,1 day\n0,10,5,2\n1,12,6,3"

/-- C1 scenario input (the spec's own example): 2024-01-01..2024-01-03
with three data rows. -/
def c1ScenContent : String :=
  "# Start date: 20240101\n# End date: 20240103\nNth day,30 days,7 days,1 day\n0,10,5,2\n1,12,6,3\n2,15,7,1"

/-- C2 counterexample input: a screens file whose `Views` field is the
non-numeric string `abc`. -/
def c2CexContent : String := "Page title and screen class,Views\nHome,abc"

/-- C3 counterexample events: distinct names, equal `usageCount`. -/
def c3EventA : AnalyticsEvent := ⟨"alpha", 5, 2, 1, 0⟩

def c3EventB : AnalyticsEvent := ⟨"beta", 5, 3, 1, 0⟩

/-- C5 counterexample event: an event named `(not set)`. -/
def c5CexEvent : AnalyticsEvent := ⟨"(not set)", 1, 1, 1, 0⟩

/-- C8 counterexample screen: a screen class named like a bootstrap
event. -/
def c8CexScreen : ScreenView := ⟨"session_start", 1, 1, 1, 1, 1, 1, 1⟩

/-! ### Lemmas and claim theorems -/

theorem aGet_aSet {α : Type} (m : List (String × α)) (k : String) (v : α)
    (n : String) : aGet (aSet m k v) n = if k = n then some v else aGet m n := by
  induction m with
  | nil => by_cases h : k = n <;> simp [aSet, aGet, h]
  | cons p rest ih =>
    obtain ⟨k', v'⟩ := p
    simp only [aSet]
    by_cases h1 : k' = k
    · subst h1
      simp only [if_pos rfl, aGet]
      by_cases h2 : k' = n <;> simp [h2]
    · simp only [if_neg h1, aGet]
      by_cases h2 : k' = n
      · subst h2
        have hkn : ¬k = k' := fun h => h1 h.symm
        simp [hkn]
      · simp [h2, ih]

theorem mem_aSet {α : Type} {m : List (String × α)} {k : String} {v : α}
    {p : String × α} (h : p ∈ aSet m k v) : p = (k, v) ∨ p ∈ m := by
  induction m with
  | nil => simpa [aSet] using h
  | cons q rest ih =>
    obtain ⟨k', v'⟩ := q
    by_cases h1 : k' = k
    · simp [aSet, h1] at h
      rcases h with h | h
      · exact Or.inl h
      · exact Or.inr (List.mem_cons_of_mem _ h)
    · simp [aSet, h1] at h
      rcases h with h | h
      · exact Or.inr (by simp [h])
      · rcases ih h with h' | h'
        · exact Or.inl h'
        · exact Or.inr (List.mem_cons_of_mem _ h')

theorem aGet_mem {α : Type} {m : List (String × α)} {k : String} {v : α}
    (h : aGet m k = some v) : (k, v) ∈ m := by
  induction m with
  | nil => simp [aGet] at h
  | cons q rest ih =>
    obtain ⟨k', v'⟩ := q
    by_cases h1 : k' = k
    · subst h1
      simp [aGet] at h
      simp [h]
    · simp [aGet, h1] at h
      exact List.mem_cons_of_mem _ (ih h)

/-- Lookup commutes with a key-preserving value transformation (used for
the `forEach` pass that attaches related screens). -/
theorem aGet_mapVal {α β : Type} (f : String → α → β) (m : List (String × α))
    (n : String) :
    aGet (m.map fun p => (p.1, f p.1 p.2)) n = (aGet m n).map (f n) := by
  induction m with
  | nil => simp [aGet]
  | cons q rest ih =>
    obtain ⟨k', v'⟩ := q
    by_cases h1 : k' = n
    · subst h1; simp [aGet]
    · simp [aGet, h1, ih]

theorem findHeaderIdx_bounds {sec : Option String} :
    ∀ (ls : List String) (i h : Nat), findHeaderIdx sec ls i = some h →
      i ≤ h ∧ h < i + ls.length := by
  intro ls
  induction ls with
  | nil => intro i h hh; simp [findHeaderIdx] at hh
  | cons l t ih =>
    intro i h hh
    simp only [findHeaderIdx] at hh
    split at hh
    · have := ih (i + 1) h hh
      constructor <;> [omega; (simp only [List.length_cons]; omega)]
    · cases sec with
      | some m =>
        simp only at hh
        split at hh
        · cases hh; constructor <;> simp
        · have := ih (i + 1) h hh
          constructor <;> [omega; (simp only [List.length_cons]; omega)]
      | none =>
        simp only at hh
        split at hh
        · cases hh; constructor <;> simp
        · have := ih (i + 1) h hh
          constructor <;> [omega; (simp only [List.length_cons]; omega)]

theorem findBFrom_lb : ∀ (ls : List String) (j : Nat), j ≤ findBFrom ls j := by
  intro ls
  induction ls with
  | nil => intro j; simp [findBFrom]
  | cons l t ih =>
    intro j
    simp only [findBFrom]
    split
    · exact Nat.le_refl _
    · exact Nat.le_trans (Nat.le_succ _) (ih (j + 1))

theorem findBFrom_ub : ∀ (ls : List String) (j : Nat),
    findBFrom ls j ≤ j + ls.length := by
  intro ls
  induction ls with
  | nil => intro j; simp [findBFrom]
  | cons l t ih =>
    intro j
    simp only [findBFrom, List.length_cons]
    split
    · omega
    · have := ih (j + 1); omega

theorem findBFrom_min : ∀ (ls : List String) (j k : Nat), j ≤ k →
    k < findBFrom ls j → isBoundary (ls.getD (k - j) "") = false := by
  intro ls
  induction ls with
  | nil =>
    intro j k _ _
    simp only [List.getD, List.get?, Option.getD]
    decide
  | cons l t ih =>
    intro j k hjk hlt
    simp only [findBFrom] at hlt
    split at hlt
    · omega
    · rename_i hbl
      by_cases hkj : k = j
      · subst hkj
        simpa using Bool.of_not_eq_true hbl
      · have h1 : j + 1 ≤ k := by omega
        have h2 : k - j = (k - (j + 1)) + 1 := by omega
        rw [h2, List.getD_cons_succ]
        exact ih (j + 1) k h1 hlt

theorem findBFrom_hit : ∀ (ls : List String) (j : Nat),
    findBFrom ls j < j + ls.length →
      isBoundary (ls.getD (findBFrom ls j - j) "") = true := by
  intro ls
  induction ls with
  | nil => intro j hf; simp [findBFrom] at hf
  | cons l t ih =>
    intro j hf
    by_cases hbl : isBoundary l = true
    · simp only [findBFrom, hbl, if_true] at hf ⊢
      simpa using hbl
    · have hb' : isBoundary l = false := Bool.of_not_eq_true hbl
      simp only [findBFrom, hb', Bool.false_eq_true, if_false,
        List.length_cons] at hf ⊢
      have hge : j + 1 ≤ findBFrom t (j + 1) := findBFrom_lb t (j + 1)
      have h2 : findBFrom t (j + 1) - j = (findBFrom t (j + 1) - (j + 1)) + 1 := by
        omega
      rw [h2, List.getD_cons_succ]
      exact ih (j + 1) (by omega)

theorem takeWhile_digit_empty {l : List Char}
    (h : (l.headD ' ').isDigit = false) : l.takeWhile Char.isDigit = [] := by
  cases l with
  | nil => rfl
  | cons c t =>
    simp only [List.headD_cons] at h
    simp [List.takeWhile_cons, h]

theorem jsParseInt_eq_none {s : String} (h : digitLeading s = false) :
    jsParseInt s = none := by
  unfold digitLeading at h
  have h2 := takeWhile_digit_empty h
  unfold jsParseInt
  simp only [h2, List.isEmpty_nil, if_true]

theorem intsFrom_length : ∀ (n : Nat) (s : Int), (intsFrom s n).length = n := by
  intro n
  induction n with
  | zero => intro s; rfl
  | succ m ih => intro s; simp [intsFrom, ih]

theorem intsFrom_getD : ∀ (n : Nat) (s : Int) (i : Nat), i < n →
    ∀ d : Int, (intsFrom s n).getD i d = s + (i : Int) := by
  intro n
  induction n with
  | zero => intro s i h; omega
  | succ m ih =>
    intro s i h d
    cases i with
    | zero => simp [intsFrom]
    | succ k =>
      have := ih (s + 1) k (by omega) d
      simp only [intsFrom, List.getD_cons_succ, this]
      push_cast
      ring

theorem intervalDates_length (s e : Int) :
    (intervalDates s e).length = (e - s + 1).toNat := intsFrom_length _ _

theorem intervalDates_getD_lt (s e : Int) (i : Nat)
    (h : i < (e - s + 1).toNat) (d : Int) :
    (intervalDates s e).getD i d = s + (i : Int) := intsFrom_getD _ _ _ h d

theorem intervalDates_getD_ge (s e : Int) (i : Nat)
    (h : (e - s + 1).toNat ≤ i) (d : Int) :
    (intervalDates s e).getD i d = d := by
  apply List.getD_eq_default
  rw [intervalDates_length]
  exact h

theorem mapIdxFrom_length {α β : Type} (f : Nat → α → β) :
    ∀ (l : List α) (i : Nat), (mapIdxFrom f i l).length = l.length := by
  intro l
  induction l with
  | nil => intro i; rfl
  | cons x xs ih => intro i; simp [mapIdxFrom, ih]

theorem mapIdxFrom_getD {α β : Type} (f : Nat → α → β) :
    ∀ (l : List α) (j i : Nat), i < l.length → ∀ (d : β) (d' : α),
      (mapIdxFrom f j l).getD i d = f (j + i) (l.getD i d') := by
  intro l
  induction l with
  | nil => intro j i h; simp at h
  | cons x xs ih =>
    intro j i h d d'
    cases i with
    | zero => simp [mapIdxFrom]
    | succ k =>
      have := ih (j + 1) k (by simpa using Nat.lt_of_succ_lt_succ h) d d'
      simp only [mapIdxFrom, List.getD_cons_succ, this]
      congr 1
      omega

/-! ### Properties of the descending stable sort -/

theorem mem_insertByDesc {α : Type} (key : α → ℚ) (x : α) :
    ∀ (l : List α) (a : α), a ∈ insertByDesc key x l ↔ a = x ∨ a ∈ l := by
  intro l
  induction l with
  | nil => intro a; simp [insertByDesc]
  | cons y ys ih =>
    intro a
    simp only [insertByDesc]
    split
    all_goals simp only [List.mem_cons, ih]
    all_goals tauto

theorem mem_sortFold {α : Type} (key : α → ℚ) :
    ∀ (l acc : List α) (a : α),
      (a ∈ l.foldl (fun acc x => insertByDesc key x acc) acc) ↔
        a ∈ acc ∨ a ∈ l := by
  intro l
  induction l with
  | nil => intro acc a; simp
  | cons x xs ih =>
    intro acc a
    simp only [List.foldl_cons, ih, mem_insertByDesc, List.mem_cons]
    tauto

theorem mem_sortByDesc {α : Type} (key : α → ℚ) (l : List α) (a : α) :
    a ∈ sortByDesc key l ↔ a ∈ l := by
  unfold sortByDesc
  rw [mem_sortFold]
  simp

theorem pairwise_insertByDesc {α : Type} (key : α → ℚ) (x : α) :
    ∀ l : List α, List.Pairwise (fun a b => key b ≤ key a) l →
      List.Pairwise (fun a b => key b ≤ key a) (insertByDesc key x l) := by
  intro l
  induction l with
  | nil => intro _; simp [insertByDesc]
  | cons y ys ih =>
    intro h
    rw [List.pairwise_cons] at h
    obtain ⟨hy, hys⟩ := h
    simp only [insertByDesc]
    split
    · rename_i hxy
      rw [List.pairwise_cons]
      refine ⟨?_, ih hys⟩
      intro z hz
      rw [mem_insertByDesc] at hz
      rcases hz with rfl | hz
      · exact hxy
      · exact hy z hz
    · rename_i hxy
      have hyx : key y ≤ key x := le_of_lt (lt_of_not_le hxy)
      rw [List.pairwise_cons]
      refine ⟨?_, List.pairwise_cons.mpr ⟨hy, hys⟩⟩
      intro z hz
      rcases List.mem_cons.mp hz with rfl | hz
      · exact hyx
      · exact le_trans (hy z hz) hyx

theorem pairwise_sortFold {α : Type} (key : α → ℚ) :
    ∀ (l acc : List α), List.Pairwise (fun a b => key b ≤ key a) acc →
      List.Pairwise (fun a b => key b ≤ key a)
        (l.foldl (fun acc x => insertByDesc key x acc) acc) := by
  intro l
  induction l with
  | nil => intro acc h; simpa
  | cons x xs ih =>
    intro acc h
    exact ih _ (pairwise_insertByDesc key x acc h)

theorem pairwise_sortByDesc {α : Type} (key : α → ℚ) (l : List α) :
    List.Pairwise (fun a b => key b ≤ key a) (sortByDesc key l) :=
  pairwise_sortFold key l [] List.Pairwise.nil

theorem max_swap (a b c : ℚ) : max (max a b) c = max (max a c) b := by
  rw [max_assoc, max_comm b c, ← max_assoc]

/-- Two same-named events may be merged in either order: sums and maxima
commute, and the recomputed average depends only on the final sums. -/
theorem step_comm (f? : Option FeatureUsageDetail) (e1 e2 : AnalyticsEvent)
    (h : e1.eventName = e2.eventName) :
    step (some (step f? e1)) e2 = step (some (step f? e2)) e1 := by
  cases f? with
  | some f =>
    obtain ⟨n, ty, u, q, a, g, rs⟩ := f
    simp only [step, mergedOf]
    refine FeatureUsageDetail.ext rfl rfl ?_ ?_ ?_ rfl rfl
    · show u + e1.eventCount + e2.eventCount = u + e2.eventCount + e1.eventCount
      ring
    · exact max_swap q e1.totalUsers e2.totalUsers
    · show (u + e1.eventCount + e2.eventCount)
          / jsOr1 (max (max q e1.totalUsers) e2.totalUsers)
        = (u + e2.eventCount + e1.eventCount)
          / jsOr1 (max (max q e2.totalUsers) e1.totalUsers)
      rw [add_right_comm, max_swap]
  | none =>
    simp only [step, initOf, mergedOf]
    refine FeatureUsageDetail.ext h ?_ ?_ ?_ ?_ rfl rfl
    · show classifyEvent e1.eventName = classifyEvent e2.eventName
      rw [h]
    · show e1.eventCount + e2.eventCount = e2.eventCount + e1.eventCount
      ring
    · exact max_comm _ _
    · show (e1.eventCount + e2.eventCount) / jsOr1 (max e1.totalUsers e2.totalUsers)
        = (e2.eventCount + e1.eventCount) / jsOr1 (max e2.totalUsers e1.totalUsers)
      rw [add_comm e1.eventCount e2.eventCount, max_comm e1.totalUsers e2.totalUsers]

/-- Folding the merge over a list of same-named events is invariant under
permutation of that list. -/
theorem foldStep_perm : ∀ {l1 l2 : List AnalyticsEvent}, l1.Perm l2 →
    ∀ (n : String), (∀ e ∈ l1, e.eventName = n) →
      ∀ f?, foldStep f? l1 = foldStep f? l2 := by
  intro l1 l2 hp
  induction hp with
  | nil => intro n _ f?; rfl
  | cons x _ ih =>
    intro n hn f?
    simp only [foldStep, List.foldl_cons]
    exact ih n (fun e he => hn e (List.mem_cons_of_mem _ he)) _
  | swap x y l =>
    intro n hn f?
    simp only [foldStep, List.foldl_cons]
    have hx : x.eventName = n := hn x (by simp)
    have hy : y.eventName = n := hn y (by simp)
    rw [step_comm f? y x (hy.trans hx.symm)]
  | trans hp1 _ ih1 ih2 =>
    intro n hn f?
    rw [ih1 n hn f?, ih2 n (fun e he => hn e (hp1.mem_iff.mpr he)) f?]

theorem aGet_mergeEvent (m : FeatureMap) (e : AnalyticsEvent) (n : String) :
    aGet (mergeEvent m e) n =
      if e.eventName = n then some (step (aGet m e.eventName) e)
      else aGet m n := by
  unfold mergeEvent
  rw [aGet_aSet]

/-- Lookup of the event-merged map at a name is the fold of the merge
over exactly the events carrying that name, in list order. -/
theorem aGet_processEvents :
    ∀ (evs : List AnalyticsEvent) (m : FeatureMap) (n : String),
      aGet (processEvents m evs) n =
        foldStep (aGet m n) (evs.filter fun e => e.eventName == n) := by
  intro evs
  induction evs with
  | nil => intro m n; rfl
  | cons e t ih =>
    intro m n
    by_cases he : e.eventName = n
    · rw [show (e :: t).filter (fun e => e.eventName == n)
          = e :: t.filter (fun e => e.eventName == n) by
        simp [List.filter_cons, he]]
      simp only [processEvents, List.foldl_cons, foldStep] at *
      rw [ih (mergeEvent m e) n, aGet_mergeEvent, if_pos he, he]
    · rw [show (e :: t).filter (fun e => e.eventName == n)
          = t.filter (fun e => e.eventName == n) by
        simp [List.filter_cons, he]]
      simp only [processEvents, List.foldl_cons] at *
      rw [ih (mergeEvent m e) n, aGet_mergeEvent, if_neg he]
      rfl

/-- Lookup through the related-screens pass. -/
theorem aGet_featureMapOf (screens : List ScreenView)
    (evs : List AnalyticsEvent) (n : String) :
    aGet (featureMapOf screens evs) n =
      (aGet (processEvents (seedScreens screens) evs) n).map
        (adjustFeature screens n) := by
  unfold featureMapOf attachRelated
  exact aGet_mapVal _ _ _

/-! ### Name invariants of the two aggregations -/

theorem adjustFeature_name (screens : List ScreenView) (k : String)
    (f : FeatureUsageDetail) :
    (adjustFeature screens k f).featureName = f.featureName := by
  unfold adjustFeature
  split
  · split
    · rfl
    · rfl
  · rfl

/-- Every entry of the screen-seeding fold either was already in the
accumulator or carries a guard-passing screen class as its name. -/
theorem seedFold_inv (G : String → Prop) :
    ∀ (screens : List ScreenView) (m : FeatureMap),
      (∀ p ∈ m, G p.2.featureName) →
      (∀ s ∈ screens, screenOk s.screenClass = true → G s.screenClass) →
      ∀ p ∈ screens.foldl seedStep m, G p.2.featureName := by
  intro screens
  induction screens with
  | nil => intro m hm _ p hp; exact hm p hp
  | cons s t ih =>
    intro m hm hs p hp
    simp only [List.foldl_cons] at hp
    refine ih (seedStep m s) ?_ (fun x hx hok => hs x (List.mem_cons_of_mem _ hx) hok) p hp
    intro q hq
    unfold seedStep at hq
    split at hq
    · rcases mem_aSet hq with rfl | hq'
      · exact hs s (by simp) (by assumption)
      · exact hm q hq'
    · exact hm q hq

/-- One merge step preserves a name predicate: a merged entry keeps the
name of an entry already present, a fresh entry carries the event's
name. -/
theorem mergeEvent_inv (G : String → Prop) (m : FeatureMap)
    (e : AnalyticsEvent) (hm : ∀ p ∈ m, G p.2.featureName)
    (he : G e.eventName) : ∀ p ∈ mergeEvent m e, G p.2.featureName := by
  intro p hp
  unfold mergeEvent at hp
  rcases mem_aSet hp with rfl | hp'
  · cases hget : aGet m e.eventName with
    | none => simpa [step, initOf, hget] using he
    | some f =>
      have hf := hm _ (aGet_mem hget)
      simpa [step, mergedOf, hget] using hf
  · exact hm p hp'

theorem processEvents_inv (G : String → Prop) :
    ∀ (evs : List AnalyticsEvent) (m : FeatureMap),
      (∀ p ∈ m, G p.2.featureName) →
      (∀ e ∈ evs, G e.eventName) →
      ∀ p ∈ processEvents m evs, G p.2.featureName := by
  intro evs
  induction evs with
  | nil => intro m hm _ p hp; exact hm p hp
  | cons e t ih =>
    intro m hm he p hp
    simp only [processEvents, List.foldl_cons] at hp ⊢
    exact ih (mergeEvent m e)
      (mergeEvent_inv G m e hm (he e (by simp)))
      (fun x hx => he x (List.mem_cons_of_mem _ hx)) p hp

theorem statSeedFold_inv (G : String → Prop) :
    ∀ (screens : List ScreenView) (m : StatsMap),
      (∀ p ∈ m, G p.2.featureName) →
      (∀ s ∈ screens, screenOk s.screenClass = true → G s.screenClass) →
      ∀ p ∈ screens.foldl statSeedStep m, G p.2.featureName := by
  intro screens
  induction screens with
  | nil => intro m hm _ p hp; exact hm p hp
  | cons s t ih =>
    intro m hm hs p hp
    simp only [List.foldl_cons] at hp
    refine ih (statSeedStep m s) ?_
      (fun x hx hok => hs x (List.mem_cons_of_mem _ hx) hok) p hp
    intro q hq
    unfold statSeedStep at hq
    split at hq
    · rcases mem_aSet hq with rfl | hq'
      · exact hs s (by simp) (by assumption)
      · exact hm q hq'
    · exact hm q hq

/-- One summary-aggregation step preserves a name predicate; an event in
the excluded bootstrap set is skipped outright, so only non-excluded
event names can enter. -/
theorem statStep_inv (G : String → Prop) (m : StatsMap) (e : AnalyticsEvent)
    (hm : ∀ p ∈ m, G p.2.featureName)
    (he : systemEvents4.contains e.eventName = false → G e.eventName) :
    ∀ p ∈ statStep m e, G p.2.featureName := by
  intro p hp
  unfold statStep at hp
  split at hp
  · exact hm p hp
  · rename_i hsys
    have hsys' : systemEvents4.contains e.eventName = false :=
      Bool.of_not_eq_true hsys
    split at hp
    · rename_i f hget
      rcases mem_aSet hp with rfl | hp'
      · have hf := hm _ (aGet_mem hget)
        simpa using hf
      · exact hm p hp'
    · rcases mem_aSet hp with rfl | hp'
      · simpa using he hsys'
      · exact hm p hp'

theorem statFoldAll_inv (G : String → Prop) :
    ∀ (evs : List AnalyticsEvent) (m : StatsMap),
      (∀ p ∈ m, G p.2.featureName) →
      (∀ e ∈ evs, systemEvents4.contains e.eventName = false → G e.eventName) →
      ∀ p ∈ evs.foldl statStep m, G p.2.featureName := by
  intro evs
  induction evs with
  | nil => intro m hm _ p hp; exact hm p hp
  | cons e t ih =>
    intro m hm he p hp
    simp only [List.foldl_cons] at hp
    exact ih (statStep m e)
      (statStep_inv G m e hm (he e (by simp)))
      (fun x hx => he x (List.mem_cons_of_mem _ hx)) p hp

/-! ### Helper facts for the claim theorems -/

theorem getD_drop {α : Type} (l : List α) (n j : Nat) (d : α) (hnj : n ≤ j) :
    (l.drop n).getD (j - n) d = l.getD j d := by
  by_cases hj : j < l.length
  · rw [List.getD_eq_getElem _ _ (by simp only [List.length_drop]; omega),
      List.getD_eq_getElem _ _ hj]
    rw [List.getElem_drop]
    congr 1
    omega
  · rw [List.getD_eq_default _ _ (by simp only [List.length_drop]; omega),
      List.getD_eq_default _ _ (by omega)]

theorem screenOk_good {c : String} (h : screenOk c = true) :
    c ≠ "(not set)" ∧ c ≠ "(other)" := by
  unfold screenOk at h
  simp only [Bool.and_eq_true, Bool.not_eq_true', decide_eq_false_iff_not] at h
  exact ⟨h.1.2, h.2⟩

theorem jsOr1_eq_max_one (q : ℚ) (h : q = 0 ∨ 1 ≤ q) : jsOr1 q = max q 1 := by
  rcases h with rfl | h
  · simp [jsOr1]
  · have hne : q ≠ 0 := (lt_of_lt_of_le one_pos h).ne'
    rw [jsOr1, if_neg hne, max_eq_left h]

theorem max_zero_or_one {a b : ℚ} (ha : a = 0 ∨ 1 ≤ a) (hb : b = 0 ∨ 1 ≤ b) :
    max a b = 0 ∨ 1 ≤ max a b := by
  rcases ha with rfl | ha
  · rcases hb with rfl | hb
    · left; simp
    · right; exact le_trans hb (le_max_right _ _)
  · right; exact le_trans ha (le_max_left _ _)

/-! ### The claims -/

/-- C4: in the detailed aggregator, merging an event into an existing
entry of the same name adds the event count to `usageCount`, sets
`uniqueUsers` to the maximum of the existing value and the event's
`totalUsers`, recomputes `avgUsagePerUser` as
`usageCount / max(uniqueUsers, 1)` (for the non-negative-integer user
counts of the data model, JS `uniqueUsers || 1` is `max(uniqueUsers,1)`),
and leaves `featureType` unchanged — in particular a screen-seeded entry
stays of type `screen`. -/
theorem c4_merge_arithmetic (m : FeatureMap) (e : AnalyticsEvent)
    (f : FeatureUsageDetail) (hf : aGet m e.eventName = some f)
    (hu : f.uniqueUsers = 0 ∨ 1 ≤ f.uniqueUsers)
    (ht : e.totalUsers = 0 ∨ 1 ≤ e.totalUsers) :
    aGet (mergeEvent m e) e.eventName = some (mergedOf f e)
    ∧ (mergedOf f e).usageCount = f.usageCount + e.eventCount
    ∧ (mergedOf f e).uniqueUsers = max f.uniqueUsers e.totalUsers
    ∧ (mergedOf f e).avgUsagePerUser
        = (f.usageCount + e.eventCount) / max (max f.uniqueUsers e.totalUsers) 1
    ∧ (mergedOf f e).featureType = f.featureType := by
  refine ⟨?_, rfl, rfl, ?_, rfl⟩
  · rw [aGet_mergeEvent, if_pos rfl, hf]
    rfl
  · show (f.usageCount + e.eventCount) / jsOr1 (max f.uniqueUsers e.totalUsers)
      = (f.usageCount + e.eventCount) / max (max f.uniqueUsers e.totalUsers) 1
    rw [jsOr1_eq_max_one _ (max_zero_or_one hu ht)]

/-- C4 witness at a concrete screen-seeded entry and event. -/
theorem c4_witness :
    aGet (mergeEvent [("HomeScreen",
        (⟨"HomeScreen", FeatureType.screen, 500, 300, 2, some 45, none⟩ :
          FeatureUsageDetail))]
        (⟨"HomeScreen", 100, 200, 1, 0⟩ : AnalyticsEvent))
      (⟨"HomeScreen", 100, 200, 1, 0⟩ : AnalyticsEvent).eventName
      = some (mergedOf
          (⟨"HomeScreen", FeatureType.screen, 500, 300, 2, some 45, none⟩ :
            FeatureUsageDetail)
          (⟨"HomeScreen", 100, 200, 1, 0⟩ : AnalyticsEvent))
    ∧ (mergedOf
          (⟨"HomeScreen", FeatureType.screen, 500, 300, 2, some 45, none⟩ :
            FeatureUsageDetail)
          (⟨"HomeScreen", 100, 200, 1, 0⟩ : AnalyticsEvent)).featureType
        = FeatureType.screen := by
  have h := c4_merge_arithmetic
    [("HomeScreen",
        (⟨"HomeScreen", FeatureType.screen, 500, 300, 2, some 45, none⟩ :
          FeatureUsageDetail))]
    (⟨"HomeScreen", 100, 200, 1, 0⟩ : AnalyticsEvent)
    (⟨"HomeScreen", FeatureType.screen, 500, 300, 2, some 45, none⟩ :
      FeatureUsageDetail)
    (by decide) (Or.inr (by decide)) (Or.inr (by decide))
  exact ⟨h.1, h.2.2.2.2⟩

/-- C10: when an event merges into an existing entry, every field other
than `usageCount`, `uniqueUsers` and `avgUsagePerUser` is unchanged —
`featureName`, the optional `engagementTime` and `relatedScreens`, and
`featureType` keep their seeded values — and every other key of the map
is untouched. -/
theorem c10_merge_frame (m : FeatureMap) (e : AnalyticsEvent)
    (f : FeatureUsageDetail) (hf : aGet m e.eventName = some f) :
    aGet (mergeEvent m e) e.eventName = some (mergedOf f e)
    ∧ (mergedOf f e).featureName = f.featureName
    ∧ (mergedOf f e).engagementTime = f.engagementTime
    ∧ (mergedOf f e).relatedScreens = f.relatedScreens
    ∧ (mergedOf f e).featureType = f.featureType
    ∧ ∀ n, n ≠ e.eventName → aGet (mergeEvent m e) n = aGet m n := by
  refine ⟨?_, rfl, rfl, rfl, rfl, ?_⟩
  · rw [aGet_mergeEvent, if_pos rfl, hf]
    rfl
  · intro n hn
    rw [aGet_mergeEvent, if_neg (fun h => hn h.symm)]

/-- C10 witness at a concrete entry and event. -/
theorem c10_witness :
    (mergedOf
        (⟨"Dash", FeatureType.screen, 10, 4, 3, some 7, none⟩ :
          FeatureUsageDetail)
        (⟨"Dash", 6, 2, 3, 0⟩ : AnalyticsEvent)).featureName
      = (⟨"Dash", FeatureType.screen, 10, 4, 3, some 7, none⟩ :
          FeatureUsageDetail).featureName
    ∧ (mergedOf
        (⟨"Dash", FeatureType.screen, 10, 4, 3, some 7, none⟩ :
          FeatureUsageDetail)
        (⟨"Dash", 6, 2, 3, 0⟩ : AnalyticsEvent)).engagementTime
      = (⟨"Dash", FeatureType.screen, 10, 4, 3, some 7, none⟩ :
          FeatureUsageDetail).engagementTime := by
  have h := c10_merge_frame
    [("Dash", (⟨"Dash", FeatureType.screen, 10, 4, 3, some 7, none⟩ :
      FeatureUsageDetail))]
    (⟨"Dash", 6, 2, 3, 0⟩ : AnalyticsEvent)
    (⟨"Dash", FeatureType.screen, 10, 4, 3, some 7, none⟩ : FeatureUsageDetail)
    (by decide)
  exact ⟨h.2.1, h.2.2.1⟩

/-- C9: whenever some folder entry starts with the case-folded base
pattern and ends with `.csv`, the locator returns an entry (never
not-found); when no exact match pre-empts the scan it returns precisely
the first such entry. -/
theorem c9_locator (files : List String) (pattern f : String)
    (h : files.find? (fileMatches (removeFirst pattern ".csv")) = some f) :
    (findCSVFile files pattern).isSome = true
    ∧ (files.contains pattern = false → findCSVFile files pattern = some f) := by
  constructor
  · unfold findCSVFile
    split
    · rfl
    · rw [h]; rfl
  · intro hc
    simp only [findCSVFile, hc, Bool.false_eq_true, if_false, h]

/-- C9 witness: the spec's scenario — pattern `Events_Event_name`, sole
entry `events_event_name2.csv`, resolved case-insensitively. -/
theorem c9_witness :
    findCSVFile ["events_event_name2.csv"] "Events_Event_name"
      = some "events_event_name2.csv" := by
  have h := c9_locator ["events_event_name2.csv"] "Events_Event_name"
    "events_event_name2.csv" (by decide)
  exact h.2 (by decide)

/-- C7: the sectioned parser returns an empty record sequence, not an
error, both when no header line is found and when the selected section
has no surviving data row. -/
theorem c7_empty (content : String) (sec : Option String) :
    (headerIdx content sec = none → parseCSV content sec = [])
    ∧ ∀ h, headerIdx content sec = some h →
        sectionDataLines content h = [] → parseCSV content sec = [] := by
  constructor
  · intro hn
    simp [parseCSV, hn]
  · intro h hh hd
    simp [parseCSV, hh, hd]

/-- C7 witness: a file whose only non-comment line is the header. -/
theorem c7_witness : parseCSV "# x\nA,B" none = [] :=
  (c7_empty "# x\nA,B" none).2 1 (by decide) (by decide)

/-- C6: given the selected header at line `h`, the section's data range
is `(h, e)` where `e` is the least index `> h` whose line has a trimmed
`#` start and contains `Start date:` (or the line count when none
exists); the boundary line and everything after it are excluded, and
blank/comment lines inside the range are dropped before records are
built. -/
theorem c6_section_range (content : String) (sec : Option String) (h : Nat)
    (hh : headerIdx content sec = some h) :
    h + 1 ≤ sectionEnd content h
    ∧ sectionEnd content h ≤ (linesOf content).length
    ∧ (∀ k, h + 1 ≤ k → k < sectionEnd content h →
        isBoundary ((linesOf content).getD k "") = false)
    ∧ (sectionEnd content h < (linesOf content).length →
        isBoundary ((linesOf content).getD (sectionEnd content h) "") = true)
    ∧ parseCSV content sec =
        ((((linesOf content).drop (h + 1)).take
            (sectionEnd content h - (h + 1))).filter keepLine).map
          (mkRecord (splitCommaTrim ((linesOf content).getD h ""))) := by
  have hlt : h < (linesOf content).length := by
    have := findHeaderIdx_bounds (linesOf content) 0 h hh
    omega
  have hlb : h + 1 ≤ sectionEnd content h := findBFrom_lb _ _
  have hub : sectionEnd content h ≤ (linesOf content).length := by
    have := findBFrom_ub ((linesOf content).drop (h + 1)) (h + 1)
    simp only [List.length_drop] at this
    unfold sectionEnd
    omega
  refine ⟨hlb, hub, ?_, ?_, ?_⟩
  · intro k hk1 hk2
    have := findBFrom_min ((linesOf content).drop (h + 1)) (h + 1) k hk1 hk2
    rwa [getD_drop _ _ _ _ hk1] at this
  · intro hend
    unfold sectionEnd at hend ⊢
    have hcond : findBFrom ((linesOf content).drop (h + 1)) (h + 1)
        < (h + 1) + ((linesOf content).drop (h + 1)).length := by
      simp only [List.length_drop]
      omega
    have hb := findBFrom_hit ((linesOf content).drop (h + 1)) (h + 1) hcond
    rwa [getD_drop _ _ _ _ (findBFrom_lb _ _)] at hb
  · simp [parseCSV, hh, sectionDataLines]

/-- C6 witness: a two-section file; the first section's rows stop at the
`# Start date:` comment. -/
theorem c6_witness :
    parseCSV "A,B\n1,2\n# Start date: 20240101\nC,D" none
      = [[("A", "1"), ("B", "2")]] := by
  have h := c6_section_range "A,B\n1,2\n# Start date: 20240101\nC,D" none 0
    (by decide)
  rw [h.2.2.2.2]
  decide

/-- C1 (amended): the loader returns exactly one record per surviving
data row; record `i` carries the `i`-th calendar day of `[start, end]`
while `i` is within the interval and the start date beyond it, so the
claimed bound `length ≤ end − start + 1` and in-order dates hold exactly
when the surviving row count does not exceed the day count. -/
theorem c1_amended_positional (content : String) (s8 e8 : List Char)
    (s e : Int) (l : List DailyActiveUsers)
    (hs : extractDate content "Start date: " = some s8)
    (hys : ymdOf s8 = some s)
    (he : extractDate content "End date: " = some e8)
    (hye : ymdOf e8 = some e)
    (hse : s ≤ e)
    (hl : loadOverviewData content = some l) :
    l.length = (overviewFiltered content).length
    ∧ (∀ i, i < l.length →
        (l.getD i dummyDaily).date
          = if (i : Int) < e - s + 1 then s + (i : Int) else s)
    ∧ ((overviewFiltered content).length ≤ (e - s + 1).toNat →
        (l.length : Int) ≤ e - s + 1) := by
  unfold loadOverviewData at hl
  simp only [hs, he, hys, hye, if_pos hse, Option.some.injEq] at hl
  subst hl
  refine ⟨mapIdxFrom_length _ _ _, ?_, ?_⟩
  · intro i hi
    rw [mapIdxFrom_length] at hi
    rw [mapIdxFrom_getD _ _ _ _ hi dummyDaily []]
    show (intervalDates s e).getD (0 + i) s = _
    rw [Nat.zero_add]
    by_cases hrange : i < (e - s + 1).toNat
    · rw [intervalDates_getD_lt _ _ _ hrange, if_pos (by omega)]
    · rw [intervalDates_getD_ge _ _ _ (by omega), if_neg (by omega)]
  · intro hcount
    rw [mapIdxFrom_length]
    omega

/-- C1 witness: on the spec's scenario file the loader's record count
equals the surviving row count (three records for three days). -/
theorem c1_amended_witness :
    ((loadOverviewData c1ScenContent).getD []).length
      = (overviewFiltered c1ScenContent).length := by
  have hl : loadOverviewData c1ScenContent
      = some ((loadOverviewData c1ScenContent).getD []) := by decide
  exact (c1_amended_positional c1ScenContent ("20240101".toList)
    ("20240103".toList) 19723 19725 _ (by decide) (by decide) (by decide)
    (by decide) (by decide) hl).1

/-- C1 counterexample: a valid one-day range (`2024-01-01..2024-01-01`,
so `end − start + 1 = 1`) with two surviving rows makes the loader
return two records — more than `end − start + 1`, refuting the claimed
bound. -/
theorem c1_counterexample :
    extractDate c1CexContent "Start date: " = some ("20240101".toList)
    ∧ extractDate c1CexContent "End date: " = some ("20240101".toList)
    ∧ ymdOf ("20240101".toList) = some 19723
    ∧ ((loadOverviewData c1CexContent).getD []).length = 2
    ∧ ¬((2 : Int) ≤ 19723 - 19723 + 1) := by
  refine ⟨by decide, by decide, by decide, by decide, by decide⟩

/-- C2 (amended): the loaders' numeric coercion is total and never
raises; a missing or empty field is coerced to zero through the
`|| '0'` default, but a present non-numeric field is passed to
`parseInt`/`parseFloat` directly and yields `NaN` (`none`), not zero. -/
theorem c2_amended_coercion (r : Row) (s : String)
    (hnd : digitLeading s = false) :
    (rowGet r "Views" = "" → (coerceScreenRow r).views = some 0)
    ∧ (rowGet r "Total revenue" = "" → (coerceScreenRow r).totalRevenue = some 0)
    ∧ (rowGet r "Event count" = "" → (coerceEventRow r).eventCount = some 0)
    ∧ jsParseInt s = none := by
  refine ⟨?_, ?_, ?_, jsParseInt_eq_none hnd⟩
  · intro h
    show jsParseInt (jsOr (rowGet r "Views") "0") = some 0
    rw [h]
    decide
  · intro h
    show jsParseFloat (jsOr (rowGet r "Total revenue") "0") = some 0
    rw [h]
    decide
  · intro h
    show jsParseInt (jsOr (rowGet r "Event count") "0") = some 0
    rw [h]
    decide

/-- C2 witness: an empty `Views` field coerces to zero, and `abc`
parses to `NaN`. -/
theorem c2_amended_witness :
    (coerceScreenRow [("Views", "")]).views = some 0
    ∧ jsParseInt "abc" = none := by
  have h := c2_amended_coercion [("Views", "")] "abc" (by decide)
  exact ⟨h.1 (by decide), h.2.2.2⟩

/-- C2 counterexample: on a row whose `Views` string is `abc` the screens
loader stores `NaN` (`none`), not zero. -/
theorem c2_counterexample :
    (loadScreenViewsData c2CexContent).map (fun v => v.views) = [Option.none]
    ∧ (Option.none : Option Int) ≠ some 0 := by
  refine ⟨by decide, by decide⟩

/-- C3 (amended): permuting the event list leaves the merged feature map
unchanged — the lookup of every feature name yields the identical entry
(name, type, counts, unique users, recomputed average, engagement time,
related screens).  The final sorted order, however, is not invariant in
general: the stable sort keeps insertion order on `usageCount` ties, and
insertion order follows the event order (see the counterexample). -/
theorem c3_amended_perm (screens : List ScreenView)
    (evs1 evs2 : List AnalyticsEvent) (hp : evs1.Perm evs2) (n : String) :
    aGet (featureMapOf screens evs1) n = aGet (featureMapOf screens evs2) n := by
  rw [aGet_featureMapOf, aGet_featureMapOf, aGet_processEvents,
    aGet_processEvents]
  have hpf := hp.filter (fun e => e.eventName == n)
  have hnames : ∀ e ∈ evs1.filter (fun e => e.eventName == n),
      e.eventName = n := by
    intro e he
    have hbeq := (List.mem_filter.mp he).2
    simpa using hbeq
  rw [foldStep_perm hpf n hnames]

/-- C3 witness: the two orders of the counterexample events give the same
map entry for `alpha`. -/
theorem c3_amended_witness :
    aGet (featureMapOf [] [c3EventA, c3EventB]) "alpha"
      = aGet (featureMapOf [] [c3EventB, c3EventA]) "alpha" :=
  c3_amended_perm [] [c3EventA, c3EventB] [c3EventB, c3EventA]
    (List.Perm.swap c3EventB c3EventA []) "alpha"

/-- C3 counterexample: two events with equal `usageCount` — permuting
them permutes the tie in the final sorted output, so the sorted order is
not invariant. -/
theorem c3_counterexample :
    List.Perm [c3EventA, c3EventB] [c3EventB, c3EventA]
    ∧ (getFeatureUsageAnalysis [c3EventA, c3EventB] []).map
        (fun f => f.featureName) = ["alpha", "beta"]
    ∧ (getFeatureUsageAnalysis [c3EventB, c3EventA] []).map
        (fun f => f.featureName) = ["beta", "alpha"]
    ∧ getFeatureUsageAnalysis [c3EventA, c3EventB] []
        ≠ getFeatureUsageAnalysis [c3EventB, c3EventA] [] :=
  ⟨List.Perm.swap c3EventB c3EventA [], by decide, by decide, by decide⟩

/-- C5 (amended): screens carrying the sentinel names `(not set)` /
`(other)` are filtered out of the detailed aggregation unconditionally,
but events are not filtered — so the output is sentinel-free exactly
when no *event* carries a sentinel name. -/
theorem c5_amended_sentinels (evs : List AnalyticsEvent)
    (screens : List ScreenView)
    (hev : ∀ ev ∈ evs, ev.eventName ≠ "(not set)" ∧ ev.eventName ≠ "(other)") :
    ∀ f ∈ getFeatureUsageAnalysis evs screens,
      f.featureName ≠ "(not set)" ∧ f.featureName ≠ "(other)" := by
  intro f hf
  unfold getFeatureUsageAnalysis at hf
  rw [mem_sortByDesc] at hf
  obtain ⟨p, hp, rfl⟩ := List.mem_map.mp hf
  unfold featureMapOf attachRelated at hp
  obtain ⟨q, hq, rfl⟩ := List.mem_map.mp hp
  simp only [adjustFeature_name]
  refine processEvents_inv
    (fun nm => nm ≠ "(not set)" ∧ nm ≠ "(other)") evs _ ?_ hev q hq
  exact seedFold_inv (fun nm => nm ≠ "(not set)" ∧ nm ≠ "(other)") screens []
    (by intro p hp; simp at hp) (fun sc _ hok => screenOk_good hok)

/-- C5 witness: with a single benign event the sole output entry is
sentinel-free. -/
theorem c5_amended_witness :
    (⟨"home_open", FeatureType.event, 2, 1, 2, none, none⟩ :
        FeatureUsageDetail).featureName ≠ "(not set)"
    ∧ (⟨"home_open", FeatureType.event, 2, 1, 2, none, none⟩ :
        FeatureUsageDetail).featureName ≠ "(other)" :=
  c5_amended_sentinels [⟨"home_open", 2, 1, 2, 0⟩] [] (by decide) _ (by decide)

/-- C5 counterexample: an event named `(not set)` becomes a standalone
feature entry — the aggregator filters only screens, not events. -/
theorem c5_counterexample :
    (getFeatureUsageAnalysis [c5CexEvent] []).map (fun f => f.featureName)
      = ["(not set)"] := by
  decide

/-- C8 (amended): the summary aggregation skips the four bootstrap events
entirely, so no entry *originating from an event* carries one of those
names — an entry with such a name can only be seeded from a screen class
(see the counterexample); every entry's category is one of the three
values by construction; the output is the usage-descending stable sort
truncated to at most 50 entries. -/
theorem c8_amended_topFeatures (evs : List AnalyticsEvent)
    (screens : List ScreenView)
    (hscreens : ∀ s ∈ screens, systemEvents4.contains s.screenClass = false) :
    (∀ f ∈ analyzeFeatureUsage evs screens,
        systemEvents4.contains f.featureName = false)
    ∧ (∀ f ∈ analyzeFeatureUsage evs screens,
        f.category = Category.screen ∨ f.category = Category.event
          ∨ f.category = Category.engagement)
    ∧ (analyzeFeatureUsage evs screens).length ≤ 50
    ∧ List.Pairwise (fun a b => b.usageCount ≤ a.usageCount)
        (analyzeFeatureUsage evs screens) := by
  refine ⟨?_, ?_, ?_, ?_⟩
  · intro f hf
    unfold analyzeFeatureUsage at hf
    have hf2 := List.take_subset 50 _ hf
    rw [mem_sortByDesc] at hf2
    obtain ⟨p, hp, rfl⟩ := List.mem_map.mp hf2
    refine statFoldAll_inv (fun nm => systemEvents4.contains nm = false)
      evs _ ?_ (fun _ _ hfalse => hfalse) p hp
    exact statSeedFold_inv (fun nm => systemEvents4.contains nm = false)
      screens [] (by intro q hq; simp at hq) (fun sc hs _ => hscreens sc hs)
  · intro f _
    cases hc : f.category
    · exact Or.inl rfl
    · exact Or.inr (Or.inl rfl)
    · exact Or.inr (Or.inr rfl)
  · unfold analyzeFeatureUsage
    rw [List.length_take]
    exact min_le_left _ _
  · unfold analyzeFeatureUsage
    exact List.Pairwise.sublist (List.take_sublist _ _)
      (pairwise_sortByDesc _ _)

/-- C8 witness: a benign screen and event satisfy the bound. -/
theorem c8_amended_witness :
    (analyzeFeatureUsage [⟨"menu_open", 3, 2, 1, 0⟩]
      [⟨"HomeScreen", 9, 4, 2, 1, 1, 0, 0⟩]).length ≤ 50 :=
  (c8_amended_topFeatures [⟨"menu_open", 3, 2, 1, 0⟩]
    [⟨"HomeScreen", 9, 4, 2, 1, 1, 0, 0⟩] (by decide)).2.2.1

/-- C8 counterexample: a screen class named `session_start` is seeded
into `topFeatures` — the four bootstrap names are excluded only as
events. -/
theorem c8_counterexample :
    (analyzeFeatureUsage [] [c8CexScreen]).map (fun f => f.featureName)
      = ["session_start"]
    ∧ systemEvents4.contains "session_start" = true := by
  refine ⟨by decide, by decide⟩
